import Mathlib

/-!
Verification of the frame-pair composition core of the `reg_to_h5` DICOM
registration converter (`src/tools/dicom-reg-converter/reg_to_h5.cxx`).

The tool reads per-Frame-of-Reference composite transforms out of a DICOM
REG file (through the ITK/DCMTK transform IO), composes them, and hands the
result to a transform writer.  We embed the transform data model and the
three core routines (`ReadComposite`, `ComposeFixedToMoving`,
`ExtractSingle`) together with the argument parsing and driver logic of
`main`, and prove the specified properties about them.

Matrix transforms are modelled as affine maps on ℚ³ (a 3×3 linear part plus
a translation, i.e. the top three rows of the 4×4 homogeneous matrix), with
exact rational arithmetic standing in for `double`.  The semantics of ITK's
`CompositeTransform` operations used by the code are embedded faithfully:

* `TransformPoint` applies the transform queue in reverse order (the last
  queue element is applied to the point first);
* `GetInverse` walks the queue front-to-back, inverts every element, and
  pushes each inverse to the front of the result queue (so the resulting
  queue is the reversed list of element inverses), failing if any element
  has no inverse;
* `FlattenTransformQueue` recursively replaces every nested composite by
  its own (flattened) elements, in order;
* `AddTransform` appends to the back of the queue.
-/

/-- A point (or vector) in ℚ³. -/
structure Vec3 where
  x : ℚ
  y : ℚ
  z : ℚ
deriving DecidableEq

/-- A 3×3 matrix over ℚ, written out entrywise. -/
structure Mat3 where
  m11 : ℚ
  m12 : ℚ
  m13 : ℚ
  m21 : ℚ
  m22 : ℚ
  m23 : ℚ
  m31 : ℚ
  m32 : ℚ
  m33 : ℚ
deriving DecidableEq

/-- Determinant of a 3×3 matrix (cofactor expansion along the first row). -/
def det3 (A : Mat3) : ℚ :=
  A.m11 * (A.m22 * A.m33 - A.m23 * A.m32)
    - A.m12 * (A.m21 * A.m33 - A.m23 * A.m31)
    + A.m13 * (A.m21 * A.m32 - A.m22 * A.m31)

/-- Matrix-vector product. -/
def mulVec3 (A : Mat3) (v : Vec3) : Vec3 :=
  ⟨A.m11 * v.x + A.m12 * v.y + A.m13 * v.z,
   A.m21 * v.x + A.m22 * v.y + A.m23 * v.z,
   A.m31 * v.x + A.m32 * v.y + A.m33 * v.z⟩

/-- Vector addition. -/
def addVec3 (u v : Vec3) : Vec3 := ⟨u.x + v.x, u.y + v.y, u.z + v.z⟩

/-- Vector negation. -/
def negVec3 (v : Vec3) : Vec3 := ⟨-v.x, -v.y, -v.z⟩

/-- Adjugate (transposed cofactor matrix) of a 3×3 matrix. -/
def adj3 (A : Mat3) : Mat3 :=
  ⟨A.m22 * A.m33 - A.m23 * A.m32,
   A.m13 * A.m32 - A.m12 * A.m33,
   A.m12 * A.m23 - A.m13 * A.m22,
   A.m23 * A.m31 - A.m21 * A.m33,
   A.m11 * A.m33 - A.m13 * A.m31,
   A.m13 * A.m21 - A.m11 * A.m23,
   A.m21 * A.m32 - A.m22 * A.m31,
   A.m12 * A.m31 - A.m11 * A.m32,
   A.m11 * A.m22 - A.m12 * A.m21⟩

/-- Scalar multiple of a 3×3 matrix. -/
def smul3 (c : ℚ) (A : Mat3) : Mat3 :=
  ⟨c * A.m11, c * A.m12, c * A.m13,
   c * A.m21, c * A.m22, c * A.m23,
   c * A.m31, c * A.m32, c * A.m33⟩

/-- Inverse of a 3×3 matrix via the adjugate formula (meaningful when the
determinant is nonzero). -/
def inv3 (A : Mat3) : Mat3 := smul3 (det3 A)⁻¹ (adj3 A)

/-- An affine transform of ℚ³: `p ↦ linear · p + offset`.  This is the
model of one ITK matrix (affine) transform, i.e. one non-composite element
of a transform queue. -/
structure AffineMat where
  linear : Mat3
  offset : Vec3
deriving DecidableEq

/-- Action of an affine transform on a point (`TransformPoint` of a single
matrix transform). -/
def affineApply (T : AffineMat) (p : Vec3) : Vec3 :=
  addVec3 (mulVec3 T.linear p) T.offset

/-- `GetInverseTransform` of a single matrix transform: fails when the
linear part is singular, else returns the affine inverse
`p ↦ A⁻¹ · p - A⁻¹ · b`. -/
def affineInverse (T : AffineMat) : Option AffineMat :=
  if det3 T.linear = 0 then none
  else some ⟨inv3 T.linear, negVec3 (mulVec3 (inv3 T.linear) T.offset)⟩

theorem inv3_mulVec3_cancel (A : Mat3) (h : det3 A ≠ 0) (v : Vec3) :
    mulVec3 (inv3 A) (mulVec3 A v) = v := by
  have hd : det3 A ≠ 0 := h
  cases v with
  | mk x y z =>
    simp only [mulVec3, inv3, smul3, adj3, Vec3.mk.injEq]
    unfold det3 at hd ⊢
    refine ⟨?_, ?_, ?_⟩ <;> field_simp <;> ring

theorem mulVec3_inv3_cancel (A : Mat3) (h : det3 A ≠ 0) (v : Vec3) :
    mulVec3 A (mulVec3 (inv3 A) v) = v := by
  have hd : det3 A ≠ 0 := h
  cases v with
  | mk x y z =>
    simp only [mulVec3, inv3, smul3, adj3, Vec3.mk.injEq]
    unfold det3 at hd ⊢
    refine ⟨?_, ?_, ?_⟩ <;> field_simp <;> ring

theorem affineInverse_left (T Ti : AffineMat) (h : affineInverse T = some Ti)
    (p : Vec3) : affineApply Ti (affineApply T p) = p := by
  unfold affineInverse at h
  by_cases hd : det3 T.linear = 0
  · simp [hd] at h
  · simp only [hd, if_false, Option.some.injEq] at h
    subst h
    simp only [affineApply]
    have h1 : mulVec3 (inv3 T.linear) (addVec3 (mulVec3 T.linear p) T.offset)
        = addVec3 (mulVec3 (inv3 T.linear) (mulVec3 T.linear p))
            (mulVec3 (inv3 T.linear) T.offset) := by
      cases p
      cases T.offset
      simp only [mulVec3, addVec3, Vec3.mk.injEq]
      refine ⟨?_, ?_, ?_⟩ <;> ring
    rw [h1, inv3_mulVec3_cancel T.linear hd]
    cases p
    cases T.offset
    simp only [mulVec3, addVec3, negVec3, Vec3.mk.injEq]
    refine ⟨?_, ?_, ?_⟩ <;> ring

theorem affineInverse_right (T Ti : AffineMat) (h : affineInverse T = some Ti)
    (p : Vec3) : affineApply T (affineApply Ti p) = p := by
  unfold affineInverse at h
  by_cases hd : det3 T.linear = 0
  · simp [hd] at h
  · simp only [hd, if_false, Option.some.injEq] at h
    subst h
    simp only [affineApply]
    have h1 : mulVec3 T.linear
        (addVec3 (mulVec3 (inv3 T.linear) p)
          (negVec3 (mulVec3 (inv3 T.linear) T.offset)))
        = addVec3 (mulVec3 T.linear (mulVec3 (inv3 T.linear) p))
            (mulVec3 T.linear (negVec3 (mulVec3 (inv3 T.linear) T.offset))) := by
      cases p
      cases T.offset
      simp only [mulVec3, addVec3, negVec3, Vec3.mk.injEq]
      refine ⟨?_, ?_, ?_⟩ <;> ring
    rw [h1, mulVec3_inv3_cancel T.linear hd]
    have h2 : mulVec3 T.linear (negVec3 (mulVec3 (inv3 T.linear) T.offset))
        = negVec3 (mulVec3 T.linear (mulVec3 (inv3 T.linear) T.offset)) := by
      cases T.offset
      simp only [mulVec3, negVec3, Vec3.mk.injEq]
      refine ⟨?_, ?_, ?_⟩ <;> ring
    rw [h2, mulVec3_inv3_cancel T.linear hd]
    cases p
    cases T.offset
    simp only [addVec3, negVec3, Vec3.mk.injEq]
    refine ⟨?_, ?_, ?_⟩ <;> ring

/-- One node of an ITK transform tree as the tool sees it: either a plain
matrix (affine) transform or a `CompositeTransform` holding an ordered
queue of sub-transforms. -/
inductive TransformNode where
  | matrix (m : AffineMat)
  | composite (q : List TransformNode)

mutual
def nodeDecEq : (a b : TransformNode) → Decidable (a = b)
  | .matrix m, .matrix n =>
    match decEq m n with
    | isTrue h => isTrue (by rw [h])
    | isFalse h => isFalse (by intro hc; injection hc; contradiction)
  | .matrix _, .composite _ => isFalse (by intro h; exact TransformNode.noConfusion h)
  | .composite _, .matrix _ => isFalse (by intro h; exact TransformNode.noConfusion h)
  | .composite q, .composite r =>
    match queueDecEq q r with
    | isTrue h => isTrue (by rw [h])
    | isFalse h => isFalse (by intro hc; injection hc; contradiction)
def queueDecEq : (a b : List TransformNode) → Decidable (a = b)
  | [], [] => isTrue rfl
  | [], _ :: _ => isFalse (by intro h; exact List.noConfusion h)
  | _ :: _, [] => isFalse (by intro h; exact List.noConfusion h)
  | a :: as, b :: bs =>
    match nodeDecEq a b, queueDecEq as bs with
    | isTrue h1, isTrue h2 => isTrue (by rw [h1, h2])
    | isFalse h1, _ => isFalse (by intro hc; injection hc; contradiction)
    | _, isFalse h2 => isFalse (by intro hc; injection hc; contradiction)
end

instance : DecidableEq TransformNode := nodeDecEq

mutual
/-- `TransformPoint` of one transform node.  A composite applies its queue
in reverse order: the queue's last element acts on the point first. -/
def applyNode : TransformNode → Vec3 → Vec3
  | .matrix m, p => affineApply m p
  | .composite q, p => applyQueue q p
/-- `TransformPoint` of a transform queue, in ITK's reverse order: the
queue `[T₁, …, Tₙ]` maps `p` to `T₁(T₂(… Tₙ(p) …))`. -/
def applyQueue : List TransformNode → Vec3 → Vec3
  | [], p => p
  | t :: ts, p => applyNode t (applyQueue ts p)
end

mutual
/-- `FlattenTransformQueue` on one queue element: a matrix stays, a nested
composite is replaced by its recursively flattened queue. -/
def flattenOne : TransformNode → List TransformNode
  | .matrix m => [.matrix m]
  | .composite q => flattenQueue q
/-- `FlattenTransformQueue`: concatenate the flattening of every element. -/
def flattenQueue : List TransformNode → List TransformNode
  | [] => []
  | t :: ts => flattenOne t ++ flattenQueue ts
end

mutual
/-- `GetInverseTransform` of one node: a matrix transform inverts via
`affineInverse`; a composite inverts via `GetInverse` on its queue. -/
def nodeInverse : TransformNode → Option TransformNode
  | .matrix m =>
    match affineInverse m with
    | none => none
    | some mi => some (.matrix mi)
  | .composite q =>
    match queueInverse q with
    | none => none
    | some qi => some (.composite qi)
/-- `CompositeTransform::GetInverse`: walk the queue front-to-back,
invert each element, and push each inverse to the FRONT of the result
queue (so the result is the reversed elementwise inverse); fail if any
element is not invertible. -/
def queueInverse : List TransformNode → Option (List TransformNode)
  | [] => some []
  | t :: ts =>
    match nodeInverse t with
    | none => none
    | some ti =>
      match queueInverse ts with
      | none => none
      | some tsi => some (tsi ++ [ti])
end

/-- A queue is flattened iff none of its elements is itself a composite. -/
def isFlattenedQueue (q : List TransformNode) : Bool :=
  q.all fun t =>
    match t with
    | .matrix _ => true
    | .composite _ => false

/-- The external DCMTK parser, abstracted: for each Frame-of-Reference UID
it yields the transform list that `reader->GetTransformList()` exposes
after `Update()`.  (A failing parse is outside the scope of the claims;
files are identified with the parser output they induce.) -/
def RegFile : Type := String → List TransformNode

/-- The error conditions raised by the core (each `throw` in the C++). -/
inductive RegError where
  | frameNotFound (uid : String)
  | unexpectedShape (uid : String)
  | notInvertible
  | missingFixedFoR
deriving DecidableEq

/-- The `what()` message carried by each thrown `std::runtime_error`. -/
def errMessage : RegError → String
  | .frameNotFound uid => "No transforms found for frame of reference " ++ uid
  | .unexpectedShape uid => "Expected CompositeTransform for frame " ++ uid
  | .notInvertible => "Fixed transform is not invertible"
  | .missingFixedFoR =>
      "At least --fixed must be supplied to determine which transform to export"

/-- `ReadComposite(regPath, frameOfReference)`: run the parser keyed to the
UID, fail if the transform list is empty, cast the first element to a
composite (failing otherwise), and return that composite's queue. -/
def ReadComposite (file : RegFile) (frameOfReference : String) :
    Except RegError (List TransformNode) :=
  match file frameOfReference with
  | [] => .error (.frameNotFound frameOfReference)
  | t :: _ =>
    match t with
    | .composite q => .ok q
    | .matrix _ => .error (.unexpectedShape frameOfReference)

/-- `ComposeFixedToMoving(regPath, fixedFoR, movingFoR)`: read both
composites, flatten each in place, invert the fixed one via `GetInverse`
(throwing when it fails), then build a fresh composite by adding the moving
composite and the fixed inverse, flatten it, and return it. -/
def ComposeFixedToMoving (file : RegFile) (fixedFoR movingFoR : String) :
    Except RegError (List TransformNode) :=
  match ReadComposite file fixedFoR with
  | .error e => .error e
  | .ok fixed =>
    match ReadComposite file movingFoR with
    | .error e => .error e
    | .ok moving =>
      let fixedFlat := flattenQueue fixed
      let movingFlat := flattenQueue moving
      match queueInverse fixedFlat with
      | none => .error .notInvertible
      | some fixedInverse =>
        .ok (flattenQueue [.composite movingFlat, .composite fixedInverse])

/-- `ExtractSingle(regPath, frameOfReference)`: read the composite, wrap it
in a fresh composite, flatten, and return. -/
def ExtractSingle (file : RegFile) (frameOfReference : String) :
    Except RegError (List TransformNode) :=
  match ReadComposite file frameOfReference with
  | .error e => .error e
  | .ok fixed => .ok (flattenQueue [.composite fixed])

/-- The `Arguments` record filled in by `ParseArguments`. -/
structure Arguments where
  inputReg : String
  outputTransform : String
  fixedFoR : Option String
  movingFoR : Option String
deriving DecidableEq

/-- The initial `Arguments` value (`std::string` default-constructs empty,
`std::optional` default-constructs disengaged). -/
def initialArgs : Arguments := Arguments.mk "" "" none none

/-- Possible outcomes of `ParseArguments`: a filled record, the `--help`
exit (usage to stderr, `EXIT_SUCCESS`), the unknown-argument exit
(diagnostic plus usage, `EXIT_FAILURE`), or the missing input/output exit
(usage, `EXIT_FAILURE`). -/
inductive ParseOutcome where
  | ok (args : Arguments)
  | helpExit
  | unknownExit (key : String)
  | missingExit
deriving DecidableEq

/-- The argument loop of `ParseArguments`, over the tokens after the
executable name.  Each value-taking flag consumes the next token when one
exists (`i + 1 < argc`); a value-taking flag that is the final token falls
through to the unknown-argument branch, as in the C++ if/else chain. -/
def parseLoop (args : Arguments) : List String → ParseOutcome
  | [] =>
    if args.inputReg = "" ∨ args.outputTransform = "" then .missingExit
    else .ok args
  | key :: rest =>
    match rest with
    | v :: rest2 =>
      if key = "--input" ∨ key = "-i" then
        parseLoop (Arguments.mk v args.outputTransform args.fixedFoR args.movingFoR) rest2
      else if key = "--output" ∨ key = "-o" then
        parseLoop (Arguments.mk args.inputReg v args.fixedFoR args.movingFoR) rest2
      else if key = "--fixed" then
        parseLoop (Arguments.mk args.inputReg args.outputTransform (some v) args.movingFoR) rest2
      else if key = "--moving" then
        parseLoop (Arguments.mk args.inputReg args.outputTransform args.fixedFoR (some v)) rest2
      else if key = "--help" ∨ key = "-h" then .helpExit
      else .unknownExit key
    | [] =>
      if key = "--help" ∨ key = "-h" then .helpExit
      else .unknownExit key

/-- `ParseArguments` on the token list `argv[1..]`. -/
def ParseArguments (argv : List String) : ParseOutcome :=
  parseLoop initialArgs argv

/-- Observable outcome of one `main` run: the process exit code, whether
the usage text was printed, the composite handed to the external writer
(`none` when the writer is never invoked, hence no output file is
created), and the diagnostic line written to stderr (empty when none). -/
structure RunOutcome where
  exitCode : Nat
  usagePrinted : Bool
  written : Option (List TransformNode)
  diagnostic : String
deriving DecidableEq

/-- The driver `main`, over the tokens after the executable name and the
abstracted input file: parse arguments, dispatch on the fixed/moving
options, run the composition engine, and hand the result to the writer;
any thrown error is caught, printed as one diagnostic line, and turns into
`EXIT_FAILURE` without the writer ever being invoked. -/
def mainRun (argv : List String) (file : RegFile) : RunOutcome :=
  match ParseArguments argv with
  | .helpExit => RunOutcome.mk 0 true none ""
  | .unknownExit key => RunOutcome.mk 1 true none ("Unknown argument: " ++ key)
  | .missingExit => RunOutcome.mk 1 true none ""
  | .ok args =>
    match args.fixedFoR, args.movingFoR with
    | some f, some m =>
      match ComposeFixedToMoving file f m with
      | .ok t => RunOutcome.mk 0 false (some t) ""
      | .error e => RunOutcome.mk 1 false none ("Error: " ++ errMessage e)
    | some f, none =>
      match ExtractSingle file f with
      | .ok t => RunOutcome.mk 0 false (some t) ""
      | .error e => RunOutcome.mk 1 false none ("Error: " ++ errMessage e)
    | none, _ => RunOutcome.mk 1 false none ("Error: " ++ errMessage .missingFixedFoR)

theorem applyQueue_append (a b : List TransformNode) (p : Vec3) :
    applyQueue (a ++ b) p = applyQueue a (applyQueue b p) := by
  induction a with
  | nil => rfl
  | cons t ts ih =>
    simp only [List.cons_append, applyQueue]
    rw [show ts.append b = ts ++ b from rfl, ih]

mutual
theorem applyQueue_flattenOne (t : TransformNode) (p : Vec3) :
    applyQueue (flattenOne t) p = applyNode t p := by
  cases t with
  | matrix m => rfl
  | composite q => simpa only [flattenOne, applyNode] using applyQueue_flattenQueue q p
theorem applyQueue_flattenQueue (q : List TransformNode) (p : Vec3) :
    applyQueue (flattenQueue q) p = applyQueue q p := by
  cases q with
  | nil => rfl
  | cons t ts =>
    simp only [flattenQueue, applyQueue, applyQueue_append,
      applyQueue_flattenQueue ts p, applyQueue_flattenOne t (applyQueue ts p)]
end

mutual
theorem flattenOne_matrices (t : TransformNode) :
    ∀ u ∈ flattenOne t, ∃ m, u = TransformNode.matrix m := by
  cases t with
  | matrix m =>
    intro u hu
    simp only [flattenOne, List.mem_singleton] at hu
    exact ⟨m, hu⟩
  | composite q =>
    intro u hu
    exact flattenQueue_matrices q u hu
theorem flattenQueue_matrices (q : List TransformNode) :
    ∀ u ∈ flattenQueue q, ∃ m, u = TransformNode.matrix m := by
  cases q with
  | nil => intro u hu; simp [flattenQueue] at hu
  | cons t ts =>
    intro u hu
    simp only [flattenQueue, List.mem_append] at hu
    cases hu with
    | inl h => exact flattenOne_matrices t u h
    | inr h => exact flattenQueue_matrices ts u h
end

theorem isFlattenedQueue_of_matrices (q : List TransformNode)
    (h : ∀ u ∈ q, ∃ m, u = TransformNode.matrix m) :
    isFlattenedQueue q = true := by
  induction q with
  | nil => rfl
  | cons t ts ih =>
    simp only [isFlattenedQueue, List.all_cons, Bool.and_eq_true]
    constructor
    · obtain ⟨m, hm⟩ := h t (List.mem_cons_self t ts)
      subst hm
      rfl
    · exact ih fun u hu => h u (List.mem_cons_of_mem t hu)

theorem flattenQueue_of_matrices (q : List TransformNode)
    (h : ∀ u ∈ q, ∃ m, u = TransformNode.matrix m) :
    flattenQueue q = q := by
  induction q with
  | nil => rfl
  | cons t ts ih =>
    obtain ⟨m, hm⟩ := h t (List.mem_cons_self t ts)
    subst hm
    simp only [flattenQueue, flattenOne, List.singleton_append, List.cons.injEq, true_and]
    exact ih fun u hu => h u (List.mem_cons_of_mem _ hu)

theorem flattenQueue_idem (q : List TransformNode) :
    flattenQueue (flattenQueue q) = flattenQueue q :=
  flattenQueue_of_matrices _ (flattenQueue_matrices q)

mutual
theorem nodeInverse_cancel (t ti : TransformNode) (h : nodeInverse t = some ti) :
    (∀ p, applyNode ti (applyNode t p) = p) ∧
    (∀ p, applyNode t (applyNode ti p) = p) := by
  cases t with
  | matrix m =>
    simp only [nodeInverse] at h
    cases hm : affineInverse m with
    | none => rw [hm] at h; exact absurd h (by simp)
    | some mi =>
      rw [hm] at h
      simp only [Option.some.injEq] at h
      subst h
      constructor
      · intro p
        simpa only [applyNode] using affineInverse_left m mi hm p
      · intro p
        simpa only [applyNode] using affineInverse_right m mi hm p
  | composite q =>
    simp only [nodeInverse] at h
    cases hq : queueInverse q with
    | none => rw [hq] at h; exact absurd h (by simp)
    | some qi =>
      rw [hq] at h
      simp only [Option.some.injEq] at h
      subst h
      have hc := queueInverse_cancel q qi hq
      constructor
      · intro p; simpa only [applyNode] using hc.1 p
      · intro p; simpa only [applyNode] using hc.2 p
theorem queueInverse_cancel (q qi : List TransformNode)
    (h : queueInverse q = some qi) :
    (∀ p, applyQueue qi (applyQueue q p) = p) ∧
    (∀ p, applyQueue q (applyQueue qi p) = p) := by
  cases q with
  | nil =>
    simp only [queueInverse, Option.some.injEq] at h
    subst h
    exact ⟨fun p => rfl, fun p => rfl⟩
  | cons t ts =>
    simp only [queueInverse] at h
    cases ht : nodeInverse t with
    | none => rw [ht] at h; exact absurd h (by simp)
    | some ti =>
      rw [ht] at h
      cases hts : queueInverse ts with
      | none => rw [hts] at h; exact absurd h (by simp)
      | some tsi =>
        rw [hts] at h
        simp only [Option.some.injEq] at h
        subst h
        have hnode := nodeInverse_cancel t ti ht
        have hqueue := queueInverse_cancel ts tsi hts
        constructor
        · intro p
          simp only [applyQueue, applyQueue_append, hnode.1 (applyQueue ts p),
            hqueue.1 p]
        · intro p
          simp only [applyQueue, applyQueue_append, hqueue.2 (applyNode ti p),
            hnode.2 p]
end

theorem queueInverse_eq_none_iff (q : List TransformNode) :
    queueInverse q = none ↔ ∃ t ∈ q, nodeInverse t = none := by
  induction q with
  | nil => simp [queueInverse]
  | cons t ts ih =>
    simp only [queueInverse]
    cases ht : nodeInverse t with
    | none =>
      simp only [true_iff]
      exact ⟨t, List.mem_cons_self t ts, ht⟩
    | some ti =>
      cases hts : queueInverse ts with
      | none =>
        simp only [true_iff]
        obtain ⟨u, hu, hnu⟩ := ih.mp hts
        exact ⟨u, List.mem_cons_of_mem t hu, hnu⟩
      | some tsi =>
        constructor
        · intro hc
          exact Option.noConfusion hc
        · rintro ⟨u, hu, hnu⟩
          rcases List.mem_cons.mp hu with hu1 | hu2
          · subst hu1
            rw [ht] at hnu
            exact Option.noConfusion hnu
          · exact absurd (ih.mpr ⟨u, hu2, hnu⟩) (by simp [hts])

theorem queueInverse_forall₂ (q qi : List TransformNode)
    (h : queueInverse q = some qi) :
    List.Forall₂ (fun t ti => nodeInverse t = some ti) q.reverse qi := by
  induction q generalizing qi with
  | nil =>
    simp only [queueInverse, Option.some.injEq] at h
    subst h
    exact List.Forall₂.nil
  | cons t ts ih =>
    simp only [queueInverse] at h
    cases ht : nodeInverse t with
    | none => rw [ht] at h; exact absurd h (by simp)
    | some ti =>
      rw [ht] at h
      cases hts : queueInverse ts with
      | none => rw [hts] at h; exact absurd h (by simp)
      | some tsi =>
        rw [hts] at h
        simp only [Option.some.injEq] at h
        subst h
        simp only [List.reverse_cons]
        exact List.rel_append (ih tsi hts) (List.Forall₂.cons ht List.Forall₂.nil)

theorem queueInverse_matrices (q qi : List TransformNode)
    (hq : ∀ u ∈ q, ∃ m, u = TransformNode.matrix m)
    (h : queueInverse q = some qi) :
    ∀ u ∈ qi, ∃ m, u = TransformNode.matrix m := by
  induction q generalizing qi with
  | nil =>
    simp only [queueInverse, Option.some.injEq] at h
    subst h
    intro u hu
    simp at hu
  | cons t ts ih =>
    simp only [queueInverse] at h
    cases ht : nodeInverse t with
    | none => rw [ht] at h; exact absurd h (by simp)
    | some ti =>
      rw [ht] at h
      cases hts : queueInverse ts with
      | none => rw [hts] at h; exact absurd h (by simp)
      | some tsi =>
        rw [hts] at h
        simp only [Option.some.injEq] at h
        subst h
        intro u hu
        rcases List.mem_append.mp hu with hu1 | hu2
        · exact ih tsi (fun v hv => hq v (List.mem_cons_of_mem t hv)) hts u hu1
        · obtain ⟨m, hm⟩ := hq t (List.mem_cons_self t ts)
          subst hm
          simp only [nodeInverse] at ht
          cases ham : affineInverse m with
          | none => rw [ham] at ht; exact absurd ht (by simp)
          | some mi =>
            rw [ham] at ht
            simp only [Option.some.injEq] at ht
            subst ht
            simp only [List.mem_singleton] at hu2
            exact ⟨mi, hu2⟩

theorem composeFixedToMoving_ok_shape (file : RegFile) (fF mF : String)
    (fq mq qi : List TransformNode)
    (hf : ReadComposite file fF = .ok fq)
    (hm : ReadComposite file mF = .ok mq)
    (hqi : queueInverse (flattenQueue fq) = some qi) :
    ComposeFixedToMoving file fF mF = .ok (flattenQueue mq ++ qi) := by
  unfold ComposeFixedToMoving
  rw [hf, hm]
  simp only [hqi, flattenQueue, flattenOne, List.append_nil]
  rw [flattenQueue_idem,
    flattenQueue_of_matrices qi
      (queueInverse_matrices _ _ (flattenQueue_matrices fq) hqi)]

theorem composeFixedToMoving_err_inverse (file : RegFile) (fF mF : String)
    (fq mq : List TransformNode)
    (hf : ReadComposite file fF = .ok fq)
    (hm : ReadComposite file mF = .ok mq)
    (hqi : queueInverse (flattenQueue fq) = none) :
    ComposeFixedToMoving file fF mF = .error .notInvertible := by
  unfold ComposeFixedToMoving
  rw [hf, hm]
  simp only [hqi]

theorem extractSingle_shape (file : RegFile) (uid : String)
    (fq : List TransformNode) (hf : ReadComposite file uid = .ok fq) :
    ExtractSingle file uid = .ok (flattenQueue fq) := by
  unfold ExtractSingle
  rw [hf]
  simp only [flattenQueue, flattenOne, List.append_nil]

theorem readComposite_empty (file : RegFile) (uid : String)
    (h : file uid = []) :
    ReadComposite file uid = .error (.frameNotFound uid) := by
  unfold ReadComposite
  rw [h]

theorem extractSingle_err (file : RegFile) (uid : String) (e : RegError)
    (h : ReadComposite file uid = .error e) :
    ExtractSingle file uid = .error e := by
  unfold ExtractSingle
  rw [h]

theorem composeFixedToMoving_errFixedRead (file : RegFile) (fF mF : String)
    (e : RegError) (h : ReadComposite file fF = .error e) :
    ComposeFixedToMoving file fF mF = .error e := by
  unfold ComposeFixedToMoving
  rw [h]

theorem composeFixedToMoving_errMovingRead (file : RegFile) (fF mF : String)
    (fq : List TransformNode) (e : RegError)
    (hok : ReadComposite file fF = .ok fq)
    (h : ReadComposite file mF = .error e) :
    ComposeFixedToMoving file fF mF = .error e := by
  unfold ComposeFixedToMoving
  rw [hok, h]

theorem mainRun_ok_both (argv : List String) (file : RegFile)
    (ir ot f m : String)
    (hp : ParseArguments argv = .ok (Arguments.mk ir ot (some f) (some m))) :
    mainRun argv file =
      match ComposeFixedToMoving file f m with
      | .ok t => RunOutcome.mk 0 false (some t) ""
      | .error e => RunOutcome.mk 1 false none ("Error: " ++ errMessage e) := by
  unfold mainRun
  rw [hp]

theorem mainRun_ok_fixedOnly (argv : List String) (file : RegFile)
    (ir ot f : String)
    (hp : ParseArguments argv = .ok (Arguments.mk ir ot (some f) none)) :
    mainRun argv file =
      match ExtractSingle file f with
      | .ok t => RunOutcome.mk 0 false (some t) ""
      | .error e => RunOutcome.mk 1 false none ("Error: " ++ errMessage e) := by
  unfold mainRun
  rw [hp]

theorem mainRun_ok_noFixed (argv : List String) (file : RegFile)
    (ir ot : String) (mf : Option String)
    (hp : ParseArguments argv = .ok (Arguments.mk ir ot none mf)) :
    mainRun argv file =
      RunOutcome.mk 1 false none ("Error: " ++ errMessage RegError.missingFixedFoR) := by
  unfold mainRun
  rw [hp]

theorem mainRun_unknown (argv : List String) (file : RegFile) (key : String)
    (hp : ParseArguments argv = .unknownExit key) :
    mainRun argv file = RunOutcome.mk 1 true none ("Unknown argument: " ++ key) := by
  unfold mainRun
  rw [hp]

theorem mainRun_missing (argv : List String) (file : RegFile)
    (hp : ParseArguments argv = .missingExit) :
    mainRun argv file = RunOutcome.mk 1 true none "" := by
  unfold mainRun
  rw [hp]

/-- The identity 3×3 matrix. -/
def idMat3 : Mat3 := ⟨1, 0, 0, 0, 1, 0, 0, 0, 1⟩

/-- A pure translation transform. -/
def translationAff (v : Vec3) : AffineMat := AffineMat.mk idMat3 v

/-- A rank-0 (hence non-invertible) matrix transform. -/
def singularAff : AffineMat := AffineMat.mk ⟨0, 0, 0, 0, 0, 0, 0, 0, 0⟩ ⟨0, 0, 0⟩

/-- Example REG file: frame `A` translates by `(10, 0, 0)` and frame `B`
translates by `(0, 5, 0)` (scenario 3 of the specification). -/
def fileAB : RegFile := fun uid =>
  if uid = "A" then
    [TransformNode.composite [TransformNode.matrix (translationAff ⟨10, 0, 0⟩)]]
  else if uid = "B" then
    [TransformNode.composite [TransformNode.matrix (translationAff ⟨0, 5, 0⟩)]]
  else []

/-- The fixed queue the parser yields for `A` in `fileAB`. -/
def fqA : List TransformNode := [TransformNode.matrix (translationAff ⟨10, 0, 0⟩)]

/-- The moving queue the parser yields for `B` in `fileAB`. -/
def mqB : List TransformNode := [TransformNode.matrix (translationAff ⟨0, 5, 0⟩)]

/-- The composite `ComposeFixedToMoving` emits for `fileAB`, `A`, `B`. -/
def rAB : List TransformNode :=
  [TransformNode.matrix (translationAff ⟨0, 5, 0⟩),
   TransformNode.matrix (translationAff ⟨-10, 0, 0⟩)]

/-- The computed inverse of the flattened fixed queue of `fileAB` at `A`. -/
def qiA : List TransformNode := [TransformNode.matrix (translationAff ⟨-10, 0, 0⟩)]

/-- Example REG file whose frame `A` transform is a nested composite. -/
def fileNestedA : RegFile := fun uid =>
  if uid = "A" then
    [TransformNode.composite
      [TransformNode.composite [TransformNode.matrix (translationAff ⟨0, 0, 0⟩)]]]
  else []

/-- Example REG file whose frame `N` composite nests another composite
next to a plain matrix. -/
def fileNestedN : RegFile := fun uid =>
  if uid = "N" then
    [TransformNode.composite
      [TransformNode.composite [TransformNode.matrix (translationAff ⟨1, 0, 0⟩)],
       TransformNode.matrix (translationAff ⟨0, 1, 0⟩)]]
  else []

/-- Example REG file whose frame `A` is present (non-empty parser list) but
carries a composite with an empty transform queue. -/
def fileEmptyComposite : RegFile := fun uid =>
  if uid = "A" then [TransformNode.composite []] else []

/-- Example REG file with a singular fixed frame `A` and a well-behaved
moving frame `B`. -/
def fileSingularFixed : RegFile := fun uid =>
  if uid = "A" then [TransformNode.composite [TransformNode.matrix singularAff]]
  else if uid = "B" then
    [TransformNode.composite [TransformNode.matrix (translationAff ⟨0, 5, 0⟩)]]
  else []

/-- Example REG file with an invertible fixed frame `A` and a singular
moving frame `B`. -/
def fileSingularMoving : RegFile := fun uid =>
  if uid = "A" then
    [TransformNode.composite [TransformNode.matrix (translationAff ⟨1, 2, 3⟩)]]
  else if uid = "B" then [TransformNode.composite [TransformNode.matrix singularAff]]
  else []

/-- The REG file whose parser output is empty for every frame. -/
def fileEmpty : RegFile := fun _ => []

/-- C1: for every REG file and FoR pair whose reads succeed, the composite
returned by `ComposeFixedToMoving` acts as `M ∘ F⁻¹`: the fixed composite's
action is a bijection, and on any point `p = F(q)` the result maps `p` to
`M(q)`, i.e. the emitted transform carries fixed-FoR coordinates to
moving-FoR coordinates via `M(F⁻¹(p))` (exactly, in the rational model). -/
theorem composeFixedToMoving_action
    (file : RegFile) (fixedFoR movingFoR : String)
    (fq mq R : List TransformNode)
    (hf : ReadComposite file fixedFoR = .ok fq)
    (hm : ReadComposite file movingFoR = .ok mq)
    (hR : ComposeFixedToMoving file fixedFoR movingFoR = .ok R) :
    Function.Bijective (applyQueue fq) ∧
    ∀ p q, applyQueue fq q = p → applyQueue R p = applyQueue mq q := by
  cases hqi : queueInverse (flattenQueue fq) with
  | none =>
    rw [composeFixedToMoving_err_inverse file fixedFoR movingFoR fq mq hf hm hqi] at hR
    exact Except.noConfusion hR
  | some qi =>
    rw [composeFixedToMoving_ok_shape file fixedFoR movingFoR fq mq qi hf hm hqi] at hR
    injection hR with hR2
    have hcancel := queueInverse_cancel _ _ hqi
    have hleft : ∀ p, applyQueue qi (applyQueue fq p) = p := by
      intro p
      rw [← applyQueue_flattenQueue fq p]
      exact hcancel.1 p
    have hright : ∀ p, applyQueue fq (applyQueue qi p) = p := by
      intro p
      have h2 := hcancel.2 p
      rwa [applyQueue_flattenQueue fq] at h2
    constructor
    · exact Function.bijective_iff_has_inverse.mpr ⟨applyQueue qi, hleft, hright⟩
    · intro p q hpq
      subst hpq
      rw [← hR2, applyQueue_append, applyQueue_flattenQueue, hleft q]

/-- Witness for C1 at the specification's scenario 3: fixed `A` translates
by `(10,0,0)`, moving `B` by `(0,5,0)`; the emitted composite maps the
origin to `M(F⁻¹(origin)) = M((-10,0,0))`. -/
theorem composeFixedToMoving_action_witness :
    applyQueue rAB ⟨0, 0, 0⟩ = applyQueue mqB ⟨-10, 0, 0⟩ :=
  (composeFixedToMoving_action fileAB "A" "B" fqA mqB rAB
      (by with_unfolding_all rfl) (by with_unfolding_all rfl)
      (by with_unfolding_all rfl)).2
    ⟨0, 0, 0⟩ ⟨-10, 0, 0⟩ (by with_unfolding_all rfl)

/-- C2: on success, the emitted queue is exactly the flattened moving
queue followed by the fixed inverse, where the fixed inverse queue is the
reversed flattened fixed queue with every element inverted. -/
theorem composeFixedToMoving_queue_shape
    (file : RegFile) (fixedFoR movingFoR : String)
    (fq mq qi R : List TransformNode)
    (hf : ReadComposite file fixedFoR = .ok fq)
    (hm : ReadComposite file movingFoR = .ok mq)
    (hqi : queueInverse (flattenQueue fq) = some qi)
    (hR : ComposeFixedToMoving file fixedFoR movingFoR = .ok R) :
    R = flattenQueue mq ++ qi ∧
    List.Forall₂ (fun t ti => nodeInverse t = some ti) (flattenQueue fq).reverse qi := by
  rw [composeFixedToMoving_ok_shape file fixedFoR movingFoR fq mq qi hf hm hqi] at hR
  injection hR with hR2
  exact ⟨hR2.symm, queueInverse_forall₂ _ _ hqi⟩

/-- Witness for C2 on `fileAB`: the emitted queue equals
`[M₁, F₁⁻¹]`, the flattened moving queue followed by the reversed
elementwise inverse of the fixed queue. -/
theorem composeFixedToMoving_queue_shape_witness :
    rAB = flattenQueue mqB ++ qiA ∧
    List.Forall₂ (fun t ti => nodeInverse t = some ti) (flattenQueue fqA).reverse qiA :=
  composeFixedToMoving_queue_shape fileAB "A" "B" fqA mqB qiA rAB
    (by with_unfolding_all rfl) (by with_unfolding_all rfl)
    (by with_unfolding_all rfl) (by with_unfolding_all rfl)

/-- C9: with both reads successful, `ComposeFixedToMoving` fails with the
not-invertible error exactly when the flattened fixed composite contains a
non-invertible element; whenever the fixed composite inverts, the call
succeeds — no condition is ever placed on the moving composite. -/
theorem composeFixedToMoving_inverts_only_fixed
    (file : RegFile) (fixedFoR movingFoR : String)
    (fq mq : List TransformNode)
    (hf : ReadComposite file fixedFoR = .ok fq)
    (hm : ReadComposite file movingFoR = .ok mq) :
    (ComposeFixedToMoving file fixedFoR movingFoR = .error .notInvertible ↔
      ∃ t ∈ flattenQueue fq, nodeInverse t = none) ∧
    (∀ qi, queueInverse (flattenQueue fq) = some qi →
      ComposeFixedToMoving file fixedFoR movingFoR = .ok (flattenQueue mq ++ qi)) := by
  constructor
  · rw [← queueInverse_eq_none_iff]
    constructor
    · intro hc
      cases hqi : queueInverse (flattenQueue fq) with
      | none => rfl
      | some qi =>
        rw [composeFixedToMoving_ok_shape file fixedFoR movingFoR fq mq qi hf hm hqi] at hc
        exact Except.noConfusion hc
    · intro hqi
      exact composeFixedToMoving_err_inverse file fixedFoR movingFoR fq mq hf hm hqi
  · intro qi hqi
    exact composeFixedToMoving_ok_shape file fixedFoR movingFoR fq mq qi hf hm hqi

/-- Witness for C9 on `fileSingularMoving`: the moving frame `B` holds a
singular matrix, yet the call succeeds because only the fixed frame `A`
is inverted. -/
theorem composeFixedToMoving_inverts_only_fixed_witness :
    ComposeFixedToMoving fileSingularMoving "A" "B" =
      Except.ok
        (flattenQueue [TransformNode.matrix singularAff] ++
          [TransformNode.matrix (translationAff ⟨-1, -2, -3⟩)]) :=
  (composeFixedToMoving_inverts_only_fixed fileSingularMoving "A" "B"
      [TransformNode.matrix (translationAff ⟨1, 2, 3⟩)]
      [TransformNode.matrix singularAff]
      (by with_unfolding_all rfl) (by with_unfolding_all rfl)).2
    [TransformNode.matrix (translationAff ⟨-1, -2, -3⟩)]
    (by with_unfolding_all rfl)

/-- Counterexample to C7 as stated: in `fileEmptyComposite` the frame `A`
is present (the parser's transform list is non-empty), yet `ExtractSingle`
returns the EMPTY composite, because the parser's composite itself has an
empty queue and the code never checks the composite's own queue. -/
theorem extractSingle_empty_counterexample :
    fileEmptyComposite "A" ≠ [] ∧
    ExtractSingle fileEmptyComposite "A" = Except.ok [] := by
  constructor
  · intro h
    exact List.noConfusion (by with_unfolding_all exact h)
  · with_unfolding_all rfl

/-- C7 (amended): `ExtractSingle` returns the flattening of the composite
the parser yielded — flattened, acting exactly as the parser's queue, and
non-empty provided the parser's composite flattens to a non-empty matrix
list. -/
theorem extractSingle_flattened_action
    (file : RegFile) (uid : String) (fq R : List TransformNode)
    (hf : ReadComposite file uid = .ok fq)
    (hR : ExtractSingle file uid = .ok R) :
    isFlattenedQueue R = true ∧
    R = flattenQueue fq ∧
    (∀ p, applyQueue R p = applyQueue fq p) ∧
    (flattenQueue fq ≠ [] → R ≠ []) := by
  rw [extractSingle_shape file uid fq hf] at hR
  injection hR with hR2
  subst hR2
  refine ⟨isFlattenedQueue_of_matrices _ (flattenQueue_matrices fq), rfl, ?_, fun h => h⟩
  intro p
  exact applyQueue_flattenQueue fq p

/-- Witness for the amended C7 on `fileNestedN`: the nested parser queue
`[[T₁], T₂]` is flattened to `[T₁, T₂]`, which acts like the original. -/
theorem extractSingle_flattened_action_witness :
    isFlattenedQueue
        [TransformNode.matrix (translationAff ⟨1, 0, 0⟩),
         TransformNode.matrix (translationAff ⟨0, 1, 0⟩)] = true ∧
    applyQueue
        [TransformNode.matrix (translationAff ⟨1, 0, 0⟩),
         TransformNode.matrix (translationAff ⟨0, 1, 0⟩)] ⟨0, 0, 0⟩ =
      applyQueue
        [TransformNode.composite [TransformNode.matrix (translationAff ⟨1, 0, 0⟩)],
         TransformNode.matrix (translationAff ⟨0, 1, 0⟩)] ⟨0, 0, 0⟩ :=
  ⟨(extractSingle_flattened_action fileNestedN "N"
      [TransformNode.composite [TransformNode.matrix (translationAff ⟨1, 0, 0⟩)],
       TransformNode.matrix (translationAff ⟨0, 1, 0⟩)]
      [TransformNode.matrix (translationAff ⟨1, 0, 0⟩),
       TransformNode.matrix (translationAff ⟨0, 1, 0⟩)]
      (by with_unfolding_all rfl) (by with_unfolding_all rfl)).1,
   (extractSingle_flattened_action fileNestedN "N"
      [TransformNode.composite [TransformNode.matrix (translationAff ⟨1, 0, 0⟩)],
       TransformNode.matrix (translationAff ⟨0, 1, 0⟩)]
      [TransformNode.matrix (translationAff ⟨1, 0, 0⟩),
       TransformNode.matrix (translationAff ⟨0, 1, 0⟩)]
      (by with_unfolding_all rfl) (by with_unfolding_all rfl)).2.2.1 ⟨0, 0, 0⟩⟩

/-- Counterexample to C3 as stated: `ReadComposite` hands back the
parser's first composite without flattening it, so on `fileNestedA` the
returned queue still contains a composite element. -/
theorem readComposite_unflattened_counterexample :
    ReadComposite fileNestedA "A" =
      Except.ok
        [TransformNode.composite [TransformNode.matrix (translationAff ⟨0, 0, 0⟩)]] ∧
    isFlattenedQueue
        [TransformNode.composite [TransformNode.matrix (translationAff ⟨0, 0, 0⟩)]]
      = false := by
  exact ⟨by with_unfolding_all rfl, by with_unfolding_all rfl⟩

/-- C3 (amended): the reader does NOT flatten — it returns the parser's
first transform (necessarily a composite) verbatim; flattening instead
happens in the two composition-engine operations, so every composite THEY
return is flattened. -/
theorem reader_verbatim_engine_flattens :
    (∀ (file : RegFile) (uid : String) (q : List TransformNode),
      ReadComposite file uid = Except.ok q →
        ∃ rest, file uid = TransformNode.composite q :: rest) ∧
    (∀ (file : RegFile) (uid : String) (R : List TransformNode),
      ExtractSingle file uid = Except.ok R → isFlattenedQueue R = true) ∧
    (∀ (file : RegFile) (fixedFoR movingFoR : String) (R : List TransformNode),
      ComposeFixedToMoving file fixedFoR movingFoR = Except.ok R →
        isFlattenedQueue R = true) := by
  refine ⟨?_, ?_, ?_⟩
  · intro file uid q h
    unfold ReadComposite at h
    cases hfu : file uid with
    | nil =>
      rw [hfu] at h
      exact Except.noConfusion h
    | cons t rest =>
      rw [hfu] at h
      cases t with
      | matrix m => exact Except.noConfusion h
      | composite q2 =>
        injection h with h2
        exact ⟨rest, by rw [h2]⟩
  · intro file uid R h
    cases hrc : ReadComposite file uid with
    | error e =>
      rw [extractSingle_err file uid e hrc] at h
      exact Except.noConfusion h
    | ok fq =>
      rw [extractSingle_shape file uid fq hrc] at h
      injection h with h2
      subst h2
      exact isFlattenedQueue_of_matrices _ (flattenQueue_matrices fq)
  · intro file fF mF R h
    cases hrf : ReadComposite file fF with
    | error e =>
      rw [composeFixedToMoving_errFixedRead file fF mF e hrf] at h
      exact Except.noConfusion h
    | ok fq =>
      cases hrm : ReadComposite file mF with
      | error e =>
        rw [composeFixedToMoving_errMovingRead file fF mF fq e hrf hrm] at h
        exact Except.noConfusion h
      | ok mq =>
        cases hqi : queueInverse (flattenQueue fq) with
        | none =>
          rw [composeFixedToMoving_err_inverse file fF mF fq mq hrf hrm hqi] at h
          exact Except.noConfusion h
        | some qi =>
          rw [composeFixedToMoving_ok_shape file fF mF fq mq qi hrf hrm hqi] at h
          injection h with h2
          subst h2
          refine isFlattenedQueue_of_matrices _ ?_
          intro u hu
          rcases List.mem_append.mp hu with hu1 | hu2
          · exact flattenQueue_matrices mq u hu1
          · exact queueInverse_matrices _ _ (flattenQueue_matrices fq) hqi u hu2

/-- Witness for the amended C3: on `fileNestedA` the reader returns the
parser's first composite verbatim. -/
theorem reader_verbatim_engine_flattens_witness :
    ∃ rest,
      fileNestedA "A" =
        TransformNode.composite
            [TransformNode.composite [TransformNode.matrix (translationAff ⟨0, 0, 0⟩)]]
          :: rest :=
  reader_verbatim_engine_flattens.1 fileNestedA "A"
    [TransformNode.composite [TransformNode.matrix (translationAff ⟨0, 0, 0⟩)]]
    (by with_unfolding_all rfl)

/-- Counterexample to C8 as stated: on `fileEmptyComposite` the composite
read for `A` is empty (its transform queue has no elements), yet the run
succeeds and the EMPTY composite is handed to the writer — no
FrameNotFound is reported. -/
theorem empty_composite_reaches_writer_counterexample :
    (mainRun ["--input", "r", "--output", "o", "--fixed", "A"]
        fileEmptyComposite).written = some [] ∧
    (mainRun ["--input", "r", "--output", "o", "--fixed", "A"]
        fileEmptyComposite).exitCode = 0 := by
  exact ⟨by with_unfolding_all rfl, by with_unfolding_all rfl⟩

/-- C8 (amended): the FrameNotFound check guards the PARSER's transform
list, not the composite's own queue: `ReadComposite` fails with
FrameNotFound exactly when the parser's list for the UID is empty, and a
non-empty list whose first element is an empty composite flows through to
the writer as an empty composite. -/
theorem frameNotFound_guards_parser_list :
    (∀ (file : RegFile) (uid : String),
      ReadComposite file uid = Except.error (RegError.frameNotFound uid) ↔
        file uid = []) ∧
    mainRun ["--input", "r", "--output", "o", "--fixed", "A"] fileEmptyComposite
      = RunOutcome.mk 0 false (some []) "" := by
  constructor
  · intro file uid
    unfold ReadComposite
    cases hfu : file uid with
    | nil => simp
    | cons t rest =>
      cases t with
      | matrix mm =>
        constructor
        · intro hc
          injection hc with h2
          exact RegError.noConfusion h2
        · intro hc
          exact List.noConfusion hc
      | composite q =>
        constructor
        · intro hc
          exact Except.noConfusion hc
        · intro hc
          exact List.noConfusion hc
  · with_unfolding_all rfl

/-- Counterexample to C4 as stated: with `--fixed` absent (but `--input`
and `--output` given) the program exits non-zero WITHOUT printing the
usage message — it prints the missing-fixed diagnostic instead. -/
theorem missingFixed_no_usage_counterexample :
    (mainRun ["--input", "r", "--output", "o"] fileEmpty).usagePrinted = false ∧
    (mainRun ["--input", "r", "--output", "o"] fileEmpty).exitCode = 1 ∧
    (mainRun ["--input", "r", "--output", "o"] fileEmpty).diagnostic
      = "Error: " ++ errMessage RegError.missingFixedFoR := by
  exact ⟨by with_unfolding_all rfl, by with_unfolding_all rfl, by with_unfolding_all rfl⟩

/-- C4 (amended): a missing `--input`/`--output` or an unknown flag yields
the usage message and a non-zero exit; when the arguments parse but the
fixed FoR is absent the program exits non-zero with the MissingFixedFoR
error kind (its diagnostic, not the usage message). -/
theorem argument_failures (argv : List String) (file : RegFile) :
    (ParseArguments argv = ParseOutcome.missingExit →
      mainRun argv file = RunOutcome.mk 1 true none "") ∧
    (∀ key, ParseArguments argv = ParseOutcome.unknownExit key →
      mainRun argv file = RunOutcome.mk 1 true none ("Unknown argument: " ++ key)) ∧
    (∀ ir ot mf, ParseArguments argv = ParseOutcome.ok (Arguments.mk ir ot none mf) →
      mainRun argv file =
        RunOutcome.mk 1 false none ("Error: " ++ errMessage RegError.missingFixedFoR)) := by
  refine ⟨?_, ?_, ?_⟩
  · intro hp
    exact mainRun_missing argv file hp
  · intro key hp
    exact mainRun_unknown argv file key hp
  · intro ir ot mf hp
    exact mainRun_ok_noFixed argv file ir ot mf hp

/-- Witness for the amended C4: `--fixed` absent with both `--input` and
`--output` present yields the MissingFixedFoR failure without usage. -/
theorem argument_failures_witness :
    mainRun ["--input", "r", "--output", "o"] fileEmpty =
      RunOutcome.mk 1 false none ("Error: " ++ errMessage RegError.missingFixedFoR) :=
  (argument_failures ["--input", "r", "--output", "o"] fileEmpty).2.2
    "r" "o" none (by with_unfolding_all rfl)

/-- C5: when the requested FoR UID has an empty parser transform list, the
run fails: exit code 1, the writer is never invoked (no output file), and
the single diagnostic line names the offending UID.  The first part covers
the fixed UID in either mode; the second covers the moving UID once the
fixed read has succeeded. -/
theorem frameNotFound_failure
    (argv : List String) (file : RegFile) (ir ot f : String)
    (mf : Option String)
    (hp : ParseArguments argv = .ok (Arguments.mk ir ot (some f) mf)) :
    (file f = [] →
      mainRun argv file =
        RunOutcome.mk 1 false none
          ("Error: " ++ errMessage (RegError.frameNotFound f)) ∧
      ∃ pre, (mainRun argv file).diagnostic = pre ++ f) ∧
    (∀ m fq, mf = some m → ReadComposite file f = .ok fq → file m = [] →
      mainRun argv file =
        RunOutcome.mk 1 false none
          ("Error: " ++ errMessage (RegError.frameNotFound m)) ∧
      ∃ pre, (mainRun argv file).diagnostic = pre ++ m) := by
  constructor
  · intro hempty
    have hrun : mainRun argv file =
        RunOutcome.mk 1 false none
          ("Error: " ++ errMessage (RegError.frameNotFound f)) := by
      cases mf with
      | none =>
        rw [mainRun_ok_fixedOnly argv file ir ot f hp,
          extractSingle_err file f _ (readComposite_empty file f hempty)]
      | some m =>
        rw [mainRun_ok_both argv file ir ot f m hp,
          composeFixedToMoving_errFixedRead file f m _
            (readComposite_empty file f hempty)]
    refine ⟨hrun, "Error: No transforms found for frame of reference ", ?_⟩
    rw [hrun]
    show "Error: " ++ ("No transforms found for frame of reference " ++ f)
      = "Error: No transforms found for frame of reference " ++ f
    rw [← String.append_assoc]
    with_unfolding_all rfl
  · intro m fq hmf hfok hempty
    subst hmf
    have hrun : mainRun argv file =
        RunOutcome.mk 1 false none
          ("Error: " ++ errMessage (RegError.frameNotFound m)) := by
      rw [mainRun_ok_both argv file ir ot f m hp,
        composeFixedToMoving_errMovingRead file f m fq _ hfok
          (readComposite_empty file m hempty)]
    refine ⟨hrun, "Error: No transforms found for frame of reference ", ?_⟩
    rw [hrun]
    show "Error: " ++ ("No transforms found for frame of reference " ++ m)
      = "Error: No transforms found for frame of reference " ++ m
    rw [← String.append_assoc]
    with_unfolding_all rfl

/-- Witness for C5: requesting the absent UID `X` from the empty REG file
fails with the FrameNotFound diagnostic naming `X`, no write. -/
theorem frameNotFound_failure_witness :
    mainRun ["--input", "r", "--output", "o", "--fixed", "X"] fileEmpty =
      RunOutcome.mk 1 false none
        ("Error: " ++ errMessage (RegError.frameNotFound "X")) :=
  ((frameNotFound_failure ["--input", "r", "--output", "o", "--fixed", "X"]
      fileEmpty "r" "o" "X" none (by with_unfolding_all rfl)).1
    (by with_unfolding_all rfl)).1

/-- C6: in pair mode, when the flattened fixed composite contains a
non-invertible element (and both reads succeed), the run reports the
NotInvertible diagnostic, exits non-zero, and never invokes the writer —
no output file is created. -/
theorem notInvertible_no_write
    (argv : List String) (file : RegFile) (ir ot f m : String)
    (fq mq : List TransformNode)
    (hp : ParseArguments argv = .ok (Arguments.mk ir ot (some f) (some m)))
    (hrf : ReadComposite file f = .ok fq)
    (hrm : ReadComposite file m = .ok mq)
    (hsing : ∃ t ∈ flattenQueue fq, nodeInverse t = none) :
    mainRun argv file =
      RunOutcome.mk 1 false none
        ("Error: " ++ errMessage RegError.notInvertible) := by
  rw [mainRun_ok_both argv file ir ot f m hp,
    composeFixedToMoving_err_inverse file f m fq mq hrf hrm
      ((queueInverse_eq_none_iff _).mpr hsing)]

/-- Witness for C6 on `fileSingularFixed`: the fixed frame `A` is a
rank-0 matrix, so the run aborts with the not-invertible diagnostic and
nothing reaches the writer. -/
theorem notInvertible_no_write_witness :
    mainRun ["--input", "r", "--output", "o", "--fixed", "A", "--moving", "B"]
        fileSingularFixed =
      RunOutcome.mk 1 false none
        ("Error: " ++ errMessage RegError.notInvertible) :=
  notInvertible_no_write
    ["--input", "r", "--output", "o", "--fixed", "A", "--moving", "B"]
    fileSingularFixed "r" "o" "A" "B"
    [TransformNode.matrix singularAff]
    [TransformNode.matrix (translationAff ⟨0, 5, 0⟩)]
    (by with_unfolding_all rfl) (by with_unfolding_all rfl)
    (by with_unfolding_all rfl)
    (by with_unfolding_all decide)

/-- The six value-taking flag spellings recognized by the argument loop. -/
def isValueFlag (key : String) : Bool :=
  key == "--input" || key == "-i" || key == "--output" || key == "-o" ||
    key == "--fixed" || key == "--moving"

/-- The record update the argument loop performs when a value-taking flag
`key` consumes the value `v`. -/
def setValueFlag (args : Arguments) (key v : String) : Arguments :=
  if key = "--input" ∨ key = "-i" then
    Arguments.mk v args.outputTransform args.fixedFoR args.movingFoR
  else if key = "--output" ∨ key = "-o" then
    Arguments.mk args.inputReg v args.fixedFoR args.movingFoR
  else if key = "--fixed" then
    Arguments.mk args.inputReg args.outputTransform (some v) args.movingFoR
  else if key = "--moving" then
    Arguments.mk args.inputReg args.outputTransform args.fixedFoR (some v)
  else args

/-- C10: a recognized value-taking flag is rejected as an unknown argument
(usage and failure exit) exactly when it is the final token; otherwise the
next token is consumed as its value — even one starting with `--` — and a
repeated flag lets the last occurrence win. -/
theorem parse_value_flag_behavior :
    (∀ (args : Arguments) (key : String), isValueFlag key = true →
      parseLoop args [key] = ParseOutcome.unknownExit key) ∧
    (∀ (args : Arguments) (key v : String) (rest : List String),
      isValueFlag key = true →
      parseLoop args (key :: v :: rest) = parseLoop (setValueFlag args key v) rest) ∧
    (∀ (argv : List String) (file : RegFile) (key : String),
      ParseArguments argv = ParseOutcome.unknownExit key →
      mainRun argv file = RunOutcome.mk 1 true none ("Unknown argument: " ++ key)) ∧
    ParseArguments ["--input", "r", "--output", "o", "--fixed", "X", "--fixed", "Y"]
      = ParseOutcome.ok (Arguments.mk "r" "o" (some "Y") none) ∧
    ParseArguments ["--input", "r", "--output", "o", "--fixed", "--moving"]
      = ParseOutcome.ok (Arguments.mk "r" "o" (some "--moving") none) := by
  refine ⟨?_, ?_, ?_, by with_unfolding_all rfl, by with_unfolding_all rfl⟩
  · intro args key hk
    simp only [isValueFlag, Bool.or_eq_true, beq_iff_eq] at hk
    rcases hk with ((((h | h) | h) | h) | h) | h <;> subst h <;> with_unfolding_all rfl
  · intro args key v rest hk
    simp only [isValueFlag, Bool.or_eq_true, beq_iff_eq] at hk
    rcases hk with ((((h | h) | h) | h) | h) | h <;> subst h <;> with_unfolding_all rfl
  · intro argv file key hp
    exact mainRun_unknown argv file key hp

/-- Witness for C10: `--fixed` as final token is rejected as unknown, while
`--fixed --moving` consumes the token `--moving` as the fixed UID. -/
theorem parse_value_flag_behavior_witness :
    parseLoop initialArgs ["--fixed"] = ParseOutcome.unknownExit "--fixed" ∧
    parseLoop initialArgs ["--fixed", "--moving"]
      = parseLoop (setValueFlag initialArgs "--fixed" "--moving") [] :=
  ⟨parse_value_flag_behavior.1 initialArgs "--fixed" (by with_unfolding_all rfl),
   parse_value_flag_behavior.2.1 initialArgs "--fixed" "--moving" []
     (by with_unfolding_all rfl)⟩
